import Mathlib

/-!
Verification of the pattern-matching and rule-rewriting engine of
`mathics/builtin/patterns.py` (mathics-core).

The expression model (`mathics.core.expression`, external to the inspected
module) is embedded as an inductive tree; `sameQ` is exact structural
identity, per the data-model section of the design.  Pattern objects are a
closed inductive type, one constructor per `PatternObject` subclass of the
source module, and the per-class `match` methods (written in the source in
continuation-passing style, where the continuation `yield_func` is invoked
once per successful binding) are embedded as one dispatching function that
returns the list of successful binding environments, in the order the
continuations fire.
-/

set_option maxRecDepth 4000

namespace MathicsPatterns

/-- Expression tree of the external expression model: atoms (symbols,
integers, strings) and compound expressions `head[elements...]`.  Mirrors
`mathics.core.expression.Expression` / `mathics.core.atoms` as consumed by
`patterns.py`. -/
inductive Expr where
  | sym : String → Expr
  | int : Int → Expr
  | str : String → Expr
  | app : Expr → List Expr → Expr
deriving Repr

mutual
/-- `sameQ`: exact structural identity of expressions (the Data-Model
section: "Structural (`sameQ`) equality is exact, syntactic identity"). -/
def sameQ : Expr → Expr → Bool
  | .sym s, .sym t => s == t
  | .int s, .int t => s == t
  | .str s, .str t => s == t
  | .app h1 es1, .app h2 es2 => sameQ h1 h2 && sameQList es1 es2
  | _, _ => false

/-- Element-wise `sameQ` on element lists. -/
def sameQList : List Expr → List Expr → Bool
  | [], [] => true
  | a :: as, b :: bs => sameQ a b && sameQList as bs
  | _, _ => false
end

mutual
theorem sameQ_iff : ∀ a b : Expr, sameQ a b = true ↔ a = b
  | .sym s, .sym t => by simp [sameQ]
  | .sym _, .int _ => by simp [sameQ]
  | .sym _, .str _ => by simp [sameQ]
  | .sym _, .app _ _ => by simp [sameQ]
  | .int _, .sym _ => by simp [sameQ]
  | .int s, .int t => by simp [sameQ]
  | .int _, .str _ => by simp [sameQ]
  | .int _, .app _ _ => by simp [sameQ]
  | .str _, .sym _ => by simp [sameQ]
  | .str _, .int _ => by simp [sameQ]
  | .str s, .str t => by simp [sameQ]
  | .str _, .app _ _ => by simp [sameQ]
  | .app _ _, .sym _ => by simp [sameQ]
  | .app _ _, .int _ => by simp [sameQ]
  | .app _ _, .str _ => by simp [sameQ]
  | .app h1 es1, .app h2 es2 => by
    simp [sameQ, sameQ_iff h1 h2, sameQList_iff es1 es2]

theorem sameQList_iff : ∀ as bs : List Expr, sameQList as bs = true ↔ as = bs
  | [], [] => by simp [sameQList]
  | [], _ :: _ => by simp [sameQList]
  | _ :: _, [] => by simp [sameQList]
  | a :: as, b :: bs => by
    simp [sameQList, sameQ_iff a b, sameQList_iff as bs]
end

/-- `BaseElement.get_head`: the head of a compound expression; atoms report
their class symbol (`Symbol`, `Integer`, `String`). -/
def getHead : Expr → Expr
  | .app h _ => h
  | .sym _ => .sym "System`Symbol"
  | .int _ => .sym "System`Integer"
  | .str _ => .sym "System`String"

/-- `Symbol.get_name`: the name of a symbol atom, `""` otherwise. -/
def getName : Expr → String
  | .sym s => s
  | _ => ""

/-- `Integer.get_int_value`: the value of an integer atom, none otherwise. -/
def getIntValue : Expr → Option Int
  | .int n => some n
  | _ => none

/-- `get_elements`: the element list of a compound expression, `[]` for atoms. -/
def getElements : Expr → List Expr
  | .app _ es => es
  | _ => []

/-- The empty sequence `Sequence[]` (the candidate a positional matcher
assigns to a slot that consumes zero sibling elements). -/
def seqEmpty : Expr := .app (.sym "System`Sequence") []

/-- `has_form("Sequence", 0)`: the candidate is the empty sequence. -/
def isEmptySequence (e : Expr) : Bool := sameQ e seqEmpty

/-- `BaseElement.get_sequence`: the elements of a `Sequence[...]`, or the
singleton list of the expression itself. -/
def getSequence : Expr → List Expr
  | .app (.sym "System`Sequence") es => es
  | e => [e]

/-- `has_form("List", n?)`: head is `System\x60List`. -/
def hasListHead (e : Expr) : Bool :=
  match e with
  | .app (.sym "System`List") _ => true
  | _ => false

/-- Head is `System\x60Dispatch`. -/
def hasDispatchHead (e : Expr) : Bool :=
  match e with
  | .app (.sym "System`Dispatch") _ => true
  | _ => false

/-- Binding environment (`vars_dict`): pattern-variable name to bound
expression.  The source copies the dict at each branch point; in the pure
embedding every extension is a fresh list, so branches never share
mutation. -/
abbrev Vars := List (String × Expr)

/-- `vars_dict.get(name, None)`. -/
def varsGet (v : Vars) (n : String) : Option Expr :=
  (v.find? (fun p => p.1 == n)).map (·.2)

/-- `vars_dict[name] = e` on a copy of the environment. -/
def varsSet (v : Vars) (n : String) (e : Expr) : Vars := (n, e) :: v

/-- The parts of `pattern_context` other than `yield_func`, `vars_dict` and
`evaluation` that the embedded variants read: the enclosing head and the
positional index/count used by `Optional` default lookup. -/
structure MatchCtx where
  head : Option Expr
  element_index : Option Int
  element_count : Option Int
deriving Repr

/-- The context passed when a variant rebuilds `pattern_context` from
scratch (`{"yield_func": ..., "vars_dict": ..., "evaluation": ...}`),
dropping `head`/`element_index`/`element_count`. -/
def ctxMin : MatchCtx := ⟨none, none, none⟩

/-- External default-value interface (`lookup_default` of §6, realized by
`get_default_value` through `evaluation.definitions`): function name and
optional position/length to default expression. -/
abbrev DefaultLookup := String → Option Int → Option Int → Option Expr

/-- The closed set of compiled pattern variants embedded here, one
constructor per `PatternObject` subclass of `patterns.py` whose `match`
(or `get_match_count`) the claims exercise.  `pattern name inner` is the
`Pattern` class (a named pattern); `blank h`, `blankSequence h`,
`blankNullSequence h` carry the optional head constraint; `optionalP`
carries the optional inline default; `exceptP c p` carries the excluded
pattern and the fallback (the compiler inserts `Blank[]` when absent);
`repeated` carries the compiled `(min, max)` range. -/
inductive PatternObject where
  | blank : Option Expr → PatternObject
  | blankSequence : Option Expr → PatternObject
  | blankNullSequence : Option Expr → PatternObject
  | pattern : String → PatternObject → PatternObject
  | optionalP : PatternObject → Option Expr → PatternObject
  | alternatives : List PatternObject → PatternObject
  | exceptP : PatternObject → PatternObject → PatternObject
  | verbatim : Expr → PatternObject
  | holdPattern : PatternObject → PatternObject
  | repeated : PatternObject → Int → Option Int → PatternObject
deriving Repr

/-- `Optional.match` (lines 1232-1267 of `patterns.py`), with the recursive
match on the inner pattern abstracted as `innerMatch` (the source calls
`self.pattern.match` with a context holding only `yield_func`, `vars_dict`
and `evaluation`).  Second component records whether the `"nodef"` message
(`Pattern::nodef`) was emitted: the candidate was the empty sequence, no
inline default exists, and no default could be resolved from the enclosing
head and position — the method then `return`s normally (no exception), so
the enclosing call goes on. -/
def optionalMatchCore (dflt : DefaultLookup) (innerMatch : Expr → Vars → List Vars)
    (default : Option Expr) (e : Expr) (ctx : MatchCtx) (v : Vars) :
    List Vars × Bool :=
  if isEmptySequence e then
    match default with
    | none =>
      let d : Option Expr :=
        match ctx.head with
        | none => none
        | some hd => dflt (getName hd) ctx.element_index ctx.element_count
      match d with
      | none => ([], true)
      | some d => (innerMatch d v, false)
    | some d0 => (innerMatch d0 v, false)
  else (innerMatch e v, false)

mutual
/-- Dispatching embedding of the per-class `match` methods of
`patterns.py`.  A call returns the list of binding environments with which
`yield_func` is invoked, in invocation order.

* `blank h` — `Blank.match` (1371-1380): one non-`Sequence[]` expression,
  head constrained by `h` when present.
* `blankSequence h` — `BlankSequence.match` (1422-1437): the candidate run
  (`get_sequence`) must be non-empty; with `h`, every element's head must
  equal `h`.
* `blankNullSequence h` — `BlankNullSequence.match` (1466-1480): as above
  without the non-emptiness requirement.
* `pattern name inner` — `Pattern.match` (1123-1147): if `name` is already
  bound, succeed (yielding the unchanged environment) exactly when the
  existing binding is `sameQ` to the candidate, without consulting `inner`;
  otherwise bind `name` and match `inner` under the extended environment.
* `optionalP inner default` — `Optional.match`, via `optionalMatchCore`
  (messages dropped here; the recursive context keeps only yield/vars/eval,
  hence `ctxMin`).
* `alternatives alts` — `Alternatives.match` (868-874): each alternative is
  tried against the same candidate and context; all successes are yielded.
* `exceptP c p` — `Except.match` (935-949): `c` is matched with a
  continuation that raises `_StopGeneratorExcept` on first success; only
  when `c` produced no success is `p` matched with the real continuation.
* `verbatim content` — `Verbatim.match` (984-990): succeed iff the content
  is `sameQ` to the candidate.
* `holdPattern inner` — `HoldPattern.match` (1024-1028): delegate.
* `repeated inner min max` — `Repeated.match` (1538-1572): the candidate
  run's length must lie in `[min, max]`; then `iter_fn` consumes the run
  one element at a time, matching `inner` against each element (with a
  minimal context) and threading the environments. -/
def matchPattern (dflt : DefaultLookup) :
    PatternObject → Expr → MatchCtx → Vars → List Vars
  | .blank h, e, _, v =>
    if isEmptySequence e then []
    else
      match h with
      | some hd => if sameQ (getHead e) hd then [v] else []
      | none => [v]
  | .blankSequence h, e, _, v =>
    let elements := getSequence e
    if elements.isEmpty then []
    else
      match h with
      | some hd => if elements.all (fun el => sameQ (getHead el) hd) then [v] else []
      | none => [v]
  | .blankNullSequence h, e, _, v =>
    let elements := getSequence e
    match h with
    | some hd => if elements.all (fun el => sameQ (getHead el) hd) then [v] else []
    | none => [v]
  | .pattern name inner, e, ctx, v =>
    match varsGet v name with
    | none => matchPattern dflt inner e ctx (varsSet v name e)
    | some existing => if sameQ existing e then [v] else []
  | .optionalP inner default, e, ctx, v =>
    (optionalMatchCore dflt (fun x w => matchPattern dflt inner x ctxMin w)
      default e ctx v).1
  | .alternatives alts, e, ctx, v => matchAlternatives dflt alts e ctx v
  | .exceptP c p, e, ctx, v =>
    if (matchPattern dflt c e ctx v).isEmpty then matchPattern dflt p e ctx v
    else []
  | .verbatim content, e, _, v => if sameQ content e then [v] else []
  | .holdPattern inner, e, ctx, v => matchPattern dflt inner e ctx v
  | .repeated inner mn mx, e, _, v =>
    let elements := getSequence e
    if (elements.length : Int) < mn then []
    else
      match mx with
      | some m => if (elements.length : Int) > m then []
                  else matchRepeatedRun dflt inner elements v
      | none => matchRepeatedRun dflt inner elements v

/-- The loop body of `Alternatives.match`: try each alternative in turn on
the same candidate, concatenating the yielded environments. -/
def matchAlternatives (dflt : DefaultLookup) :
    List PatternObject → Expr → MatchCtx → Vars → List Vars
  | [], _, _, _ => []
  | p :: ps, e, ctx, v =>
    matchPattern dflt p e ctx v ++ matchAlternatives dflt ps e ctx v

/-- `iter_fn` inside `Repeated.match`: consume the remaining run one
element at a time, matching the inner pattern against each element and
recursing on the rest under every environment the inner match yields. -/
def matchRepeatedRun (dflt : DefaultLookup) (inner : PatternObject) :
    List Expr → Vars → List Vars
  | [], v => [v]
  | x :: rest, v =>
    (matchPattern dflt inner x ctxMin v).flatMap
      (fun v2 => matchRepeatedRun dflt inner rest v2)
end

/-- Modelled from the spec: the positional matcher of
`mathics.core.pattern` (not under `src/`; only the per-variant `match`
methods are), restricted to the degenerate case the spec calls out for
fixed-arity sub-patterns: each sub-pattern has match count `(1, 1)`, so
the partition of the candidate's element list is forced — element `i` is
matched against sub-pattern `i`, threading the binding environment left to
right ("successive elements of the candidate's element list must be
partitioned among the sub-patterns; the search proceeds left to right"). -/
def matchElementsFixed (dflt : DefaultLookup) :
    List PatternObject → List Expr → Vars → List Vars
  | [], [], v => [v]
  | p :: ps, e :: es, v =>
    (matchPattern dflt p e ctxMin v).flatMap
      (fun v2 => matchElementsFixed dflt ps es v2)
  | _, _, _ => []

/-- Modelled from the spec: "apply rules once to a node = try each rule in
order, stop at first success" (the `Replace`/`ReplaceAll` policy; the
driver itself lives in `mathics.core`, outside `src/`).  Used to express
that a failed match attempt does not abort the call: later rules are
still tried. -/
def applyRulesFirst (dflt : DefaultLookup) :
    List (PatternObject × Expr) → Expr → MatchCtx → Vars → Option Expr
  | [], _, _, _ => none
  | (p, rhs) :: rest, e, ctx, v =>
    if (matchPattern dflt p e ctx v).isEmpty then
      applyRulesFirst dflt rest e ctx v
    else some rhs

/-- Outcome of `create_rules` (lines 147-222): a list of compiled rules; a
re-dispatch for a list-of-lists argument (the function returns a
`ListExpression` of one driver sub-call per item, with second component
`True`); a reported message (`evaluation.message(name, tag, ...)`
followed by `return None, True`); or, for a rules argument whose own head
is `Dispatch` (`rules_expr.has_form("Dispatch", None)`, line 169), the
early `return Dispatch(rules_expr.elements, evaluation)` of line 170 —
a `Dispatch` value built from the argument's elements, returned bare
rather than as a `(rules, ret)` pair. -/
inductive CreateRulesOut where
  | rules : List (Expr × Expr) → CreateRulesOut
  | nested : List Expr → CreateRulesOut
  | error : String → CreateRulesOut
  | dispatchValue : List Expr → CreateRulesOut
deriving Repr

/-- Head is `System\x60Rule` or `System\x60RuleDelayed`. -/
def isRuleHead (e : Expr) : Bool :=
  sameQ (getHead e) (.sym "System`Rule") || sameQ (getHead e) (.sym "System`RuleDelayed")

/-- The final loop of `create_rules` (lines 205-222): each purported rule
must have head `Rule`/`RuleDelayed` (else message `reps`) and exactly two
elements (else message `argrx`); the first offending item aborts with
`(None, True)` and nothing is rewritten. -/
def createRulesLoop : List Expr → List (Expr × Expr) → CreateRulesOut
  | [], acc => .rules acc.reverse
  | r :: rest, acc =>
    if isRuleHead r then
      match getElements r with
      | [lhs, rhs] => createRulesLoop rest ((lhs, rhs) :: acc)
      | _ => .error "argrx"
    else .error "reps"

/-- `create_rules` (lines 147-222), the shared rule-normalization step of
the four Replace-family drivers, for a rule argument that is not a
`Dispatch` atom (the `isinstance(rules_expr, Dispatch)` branch of line
167 concerns the `Dispatch` value class, which the expression tree does
not represent).  An argument whose own head is `Dispatch` takes the early
return of lines 169-170, yielding a `Dispatch` built from its elements
and reporting nothing.  Otherwise the argument is a single rule or a
`List` of items; if any item has head `List` or `Dispatch`, either all
items are `List`s (one independent driver sub-call per item) or the
message `rmix` is reported; otherwise every item must be a well-formed
rule. -/
def create_rules (rules_expr : Expr) : CreateRulesOut :=
  if hasDispatchHead rules_expr then .dispatchValue (getElements rules_expr)
  else
    let rules := if hasListHead rules_expr then getElements rules_expr else [rules_expr]
    let any_lists := rules.any (fun item => hasListHead item || hasDispatchHead item)
    if any_lists then
      if rules.all hasListHead then .nested rules
      else .error "rmix"
    else createRulesLoop rules []

/-- The shared shape of the Replace-family `eval` methods around
`create_rules` (e.g. `ReplaceAll.eval`, lines 372-382): on a message the
method returns `None` (the input expression is not rewritten); on a
list-of-lists it returns the `ListExpression` of per-item sub-calls; else
it applies the compiled rules through the external `do_apply_rules`
capability (abstracted as `applyFn`).  When `create_rules` early-returns a
bare `Dispatch` value (line 170), the caller's `rules, ret = ...` tuple
unpacking raises an uncaught `TypeError`, so no rewritten expression is
produced either; that outcome is embedded as `none` and is not exercised
by the theorems below. -/
def driverEval (applyFn : List (Expr × Expr) → Expr → Expr × Bool)
    (driverName : String) (e rules_expr : Expr) : Option Expr :=
  match create_rules rules_expr with
  | .error _ => none
  | .nested items =>
    some (.app (.sym "System`List")
      (items.map (fun item => .app (.sym driverName) [e, item])))
  | .rules rs => some (applyFn rs e).1
  | .dispatchValue _ => none

/-- Modelled from the spec: `Rule.apply(expr, evaluation,
return_list=True, max_list=n)` (in `mathics.core.rules`, not under
`src/`) "collects every distinct successful substitution (bounded by
`max_list`)"; the unbounded enumeration is abstracted as `enum`. -/
def rule_apply_list (enum : Expr × Expr → Expr → List Expr)
    (r : Expr × Expr) (e : Expr) (max_list : Option Nat) : List Expr :=
  match max_list with
  | none => enum r e
  | some n => (enum r e).take n

/-- The third argument handling of `ReplaceList.eval` (lines 526-537):
`Infinity` means no bound; otherwise a non-negative machine integer is
required (message `innf` and `None` result otherwise). -/
def replace_list_parse_max (maxidx : Expr) : Option (Option Nat) :=
  if sameQ maxidx (.sym "System`Infinity") then some none
  else
    match getIntValue maxidx with
    | none => none
    | some n => if n < 0 then none else some (some n.toNat)

/-- The result loop of `ReplaceList.eval` (lines 549-554): for each rule of
the flat rule list, `rule.apply(expr, return_list=True,
max_list=max_count)` is called with the same `max_count`, and the per-rule
result lists are concatenated in rule order. -/
def replace_list_eval (enum : Expr × Expr → Expr → List Expr)
    (e : Expr) (rules : List (Expr × Expr)) (max_count : Option Nat) : List Expr :=
  rules.flatMap (fun r => rule_apply_list enum r e max_count)

/-- One iteration body of the `ReplaceRepeated.eval_list` loop (lines
457-468): `result, applied = expr.do_apply_rules(rules, evaluation)` and,
when a rule applied, `result = result.evaluate(evaluation)`.  The external
`do_apply_rules` and `evaluate` capabilities are abstracted as `step` and
`ev`. -/
def rr_fstep (step : Expr → Expr × Bool) (ev : Expr → Expr) (e : Expr) :
    Expr × Bool :=
  let p := step e
  (if p.2 then ev p.1 else p.1, p.2)

/-- The `while True` loop of `ReplaceRepeated.eval_list` with a
non-negative `MaxIterations` value as fuel: at each loop head, if
`maxit == 0` the loop breaks and returns the `result` of the previous
iteration (`none` encodes the unbound `result` when no iteration ran at
all); otherwise `maxit` is decremented, one `rr_fstep` iteration runs, and
the loop continues exactly when a rule applied and the evaluated result is
not `sameQ` to the previous expression. -/
def replace_repeated_loop (step : Expr → Expr × Bool) (ev : Expr → Expr) :
    Nat → Expr → Option Expr
  | 0, _ => none
  | n + 1, e =>
    let r := rr_fstep step ev e
    if r.2 && !sameQ r.1 e then
      match replace_repeated_loop step ev n r.1 with
      | none => some r.1
      | some out => some out
    else some r.1

/-- `n`-fold iteration of the loop body: `rrIter n e` is the expression
held in `expr`/`result` after `n` completed iterations from `e`. -/
def rrIter (step : Expr → Expr × Bool) (ev : Expr → Expr) : Nat → Expr → Expr
  | 0, e => e
  | n + 1, e => (rr_fstep step ev (rrIter step ev n e)).1

/-- The `ReplaceRepeated.eval_list` loop with no cap (a non-numeric
`MaxIterations` option sets `maxit = -1`, which the `maxit == 0` test
never stops): `rr_uncapped step ev e r` holds when the loop, started at
`e`, terminates with result `r`. -/
inductive rr_uncapped (step : Expr → Expr × Bool) (ev : Expr → Expr) :
    Expr → Expr → Prop where
  | done : ∀ e, ((rr_fstep step ev e).2 && !sameQ (rr_fstep step ev e).1 e) = false →
      rr_uncapped step ev e (rr_fstep step ev e).1
  | next : ∀ e out, ((rr_fstep step ev e).2 && !sameQ (rr_fstep step ev e).1 e) = true →
      rr_uncapped step ev (rr_fstep step ev e).1 out →
      rr_uncapped step ev e out

/-- The range handling of `Repeated.init` (lines 1516-1536): with one
element, `(min, max) = (min_idx, None)`; with two, the range specification
is accepted when it `has_form("List", 1, 2)` with every element carrying
an integer value (then `min`/`max` come from its first/last element), or
when its own integer value is truthy (non-zero; it becomes `max`);
anything else reports the `range` `PatternError`.  (Other element counts
are stopped earlier by the `arg_counts = [1, 2]` check of
`PatternObject.init`, outside `src/`.) -/
def repeated_init_range (elements : List Expr) (min_idx : Int) :
    Except String (Int × Option Int) :=
  match elements with
  | [_] => .ok (min_idx, none)
  | [_, element_1] =>
    let els := getElements element_1
    let allnumbers := els.all (fun el => (getIntValue el).isSome)
    if hasListHead element_1 && (els.length == 1 || els.length == 2) && allnumbers then
      match els.head?.bind getIntValue, els.getLast?.bind getIntValue with
      | some mn, some mx => .ok (mn, some mx)
      | _, _ => .error "unreachable"
    else
      match getIntValue element_1 with
      | some m => if m == 0 then .error "range" else .ok (min_idx, some m)
      | none => .error "range"
  | _ => .error "range"

/-- The merge loop of `Alternatives.get_match_count` (lines 876-889), on
the sub-patterns' match counts (`None` max meaning unbounded).
`range_lst` is created as `tuple(sub)` from the first alternative's count;
for every later alternative the source then attempts in-place item
assignment on that tuple whenever the running minimum must shrink
(`sub[0] < range_lst[0]`) or the running maximum must grow
(`range_lst[1] is None or sub[1] > range_lst[1]`), which raises
`TypeError` on a tuple; the comparison `sub[1] > range_lst[1]` itself
raises `TypeError` when `sub[1]` is `None` and `range_lst[1]` is not. -/
def alternatives_gmc_loop :
    Int × Option Int → List (Int × Option Int) → Except String (Int × Option Int)
  | range_lst, [] => .ok range_lst
  | range_lst, sub :: rest =>
    if sub.1 < range_lst.1 then .error "TypeError-tuple-assignment"
    else
      match range_lst.2 with
      | none => .error "TypeError-tuple-assignment"
      | some m =>
        match sub.2 with
        | none => .error "TypeError-none-comparison"
        | some s =>
          if s > m then .error "TypeError-tuple-assignment"
          else alternatives_gmc_loop range_lst rest

/-- `Alternatives.get_match_count` (lines 876-889) as a function of the
alternatives' match counts; an empty alternative list reaches
`tuple(None)`, also a `TypeError`. -/
def alternatives_get_match_count :
    List (Int × Option Int) → Except String (Int × Option Int)
  | [] => .error "TypeError-tuple-of-none"
  | first :: rest => alternatives_gmc_loop first rest

/-- The merge the spec claims for `Alternatives.get_match_count`
(written from the spec's words, for comparison with the source function):
minimum of the minima, maximum of the maxima with `None` maximal. -/
def match_count_merge (first : Int × Option Int)
    (rest : List (Int × Option Int)) : Int × Option Int :=
  rest.foldl
    (fun r s =>
      (min r.1 s.1,
        match r.2, s.2 with
        | some a, some b => some (max a b)
        | _, _ => none))
    first

/-! ### Supporting lemmas -/

theorem sameQ_eq_false_iff (a b : Expr) : sameQ a b = false ↔ a ≠ b := by
  rw [Bool.eq_false_iff]
  exact not_congr (sameQ_iff a b)

theorem sameQ_refl (a : Expr) : sameQ a a = true := (sameQ_iff a a).mpr rfl

/-- A `DefaultLookup` with no declared defaults. -/
def noDefaults : DefaultLookup := fun _ _ _ => none

theorem all_heads_iff (es : List Expr) (hd : Expr) :
    es.all (fun el => sameQ (getHead el) hd) = true ↔ ∀ x ∈ es, getHead x = hd := by
  simp [List.all_eq_true, sameQ_iff]

/-- `Pattern.match` when the variable is already bound: the yielded list is
`[v]` when the binding is `sameQ` to the candidate and `[]` otherwise. -/
theorem pattern_match_bound (dflt : DefaultLookup) (n : String)
    (inner : PatternObject) (e : Expr) (ctx : MatchCtx) (v : Vars) (ex : Expr)
    (hget : varsGet v n = some ex) :
    matchPattern dflt (.pattern n inner) e ctx v =
      if sameQ ex e then [v] else [] := by
  simp [matchPattern, hget]

/-- `Blank[]` yields on any candidate other than the empty sequence. -/
theorem blank_match_nonempty (dflt : DefaultLookup) (e : Expr) (ctx : MatchCtx)
    (v : Vars) (he : e ≠ seqEmpty) :
    matchPattern dflt (.blank none) e ctx v = [v] := by
  simp [matchPattern, isEmptySequence, (sameQ_eq_false_iff e seqEmpty).mpr he]

/-! ### C6 -/

/-- C6: matching `BlankSequence` against the empty run of sibling elements
never succeeds while `BlankNullSequence` always does, and with a head
argument `h`, a run matches exactly when every element of the run has head
`h` (plus non-emptiness for `BlankSequence`). -/
theorem blank_sequences_arity_and_heads :
    (∀ (dflt : DefaultLookup) (h : Option Expr) (ctx : MatchCtx) (v : Vars),
      matchPattern dflt (.blankSequence h) seqEmpty ctx v = []) ∧
    (∀ (dflt : DefaultLookup) (h : Option Expr) (ctx : MatchCtx) (v : Vars),
      matchPattern dflt (.blankNullSequence h) seqEmpty ctx v = [v]) ∧
    (∀ (dflt : DefaultLookup) (hd e : Expr) (ctx : MatchCtx) (v : Vars),
      (matchPattern dflt (.blankSequence (some hd)) e ctx v ≠ [] ↔
        getSequence e ≠ [] ∧ ∀ x ∈ getSequence e, getHead x = hd)) ∧
    (∀ (dflt : DefaultLookup) (hd e : Expr) (ctx : MatchCtx) (v : Vars),
      (matchPattern dflt (.blankNullSequence (some hd)) e ctx v ≠ [] ↔
        ∀ x ∈ getSequence e, getHead x = hd)) := by
  refine ⟨?_, ?_, ?_, ?_⟩
  · intro dflt h ctx v
    cases h <;> simp [matchPattern, seqEmpty, getSequence]
  · intro dflt h ctx v
    cases h <;> simp [matchPattern, seqEmpty, getSequence]
  · intro dflt hd e ctx v
    by_cases hes : (getSequence e).isEmpty = true
    · have hnil : getSequence e = [] := by simpa using hes
      simp [matchPattern, hes, hnil]
    · have hne : getSequence e ≠ [] := by
        intro hh
        exact hes (by simp [hh])
      rw [Bool.not_eq_true] at hes
      by_cases hall : (getSequence e).all (fun el => sameQ (getHead el) hd) = true
      · simp [matchPattern, hes, hall, hne]
        exact (all_heads_iff _ hd).mp hall
      · have hnall : ¬ ∀ x ∈ getSequence e, getHead x = hd :=
          fun hh => hall ((all_heads_iff _ hd).mpr hh)
        rw [Bool.not_eq_true] at hall
        simp [matchPattern, hes, hall, hnall]
  · intro dflt hd e ctx v
    by_cases hall : (getSequence e).all (fun el => sameQ (getHead el) hd) = true
    · simp [matchPattern, hall]
      exact (all_heads_iff _ hd).mp hall
    · have hnall : ¬ ∀ x ∈ getSequence e, getHead x = hd :=
        fun hh => hall ((all_heads_iff _ hd).mpr hh)
      rw [Bool.not_eq_true] at hall
      simp [matchPattern, hall, hnall]

/-! ### C3 -/

/-- C3 counterexample: at the empty-sequence candidate, `Except[Verbatim[a]]`
fails even though `Verbatim[a]` also fails (the default fallback `Blank[]`
rejects `Sequence[]`), contradicting the claimed equivalence for every
candidate. -/
theorem except_iff_counterexample :
    ¬ ((matchPattern noDefaults
          (.exceptP (.verbatim (.sym "a")) (.blank none)) seqEmpty ctxMin [] ≠ []) ↔
        matchPattern noDefaults (.verbatim (.sym "a")) seqEmpty ctxMin [] = []) := by
  have h1 : matchPattern noDefaults
      (.exceptP (.verbatim (.sym "a")) (.blank none)) seqEmpty ctxMin [] = [] := by
    simp [matchPattern, isEmptySequence, seqEmpty, sameQ, sameQList]
  have h2 : matchPattern noDefaults (.verbatim (.sym "a")) seqEmpty ctxMin [] = [] := by
    simp [matchPattern, seqEmpty, sameQ, sameQList]
  simp [h1, h2]

/-- C3 (amended): for every pattern `c` and every candidate other than the
empty sequence, matching `Except[c]` (with its default fallback `Blank[]`)
succeeds iff matching `c` fails; at the empty-sequence candidate
`Except[c]` never succeeds, whether or not `c` does. -/
theorem except_matches_iff_not_excluded :
    (∀ (dflt : DefaultLookup) (c : PatternObject) (x : Expr) (ctx : MatchCtx)
        (v : Vars), x ≠ seqEmpty →
      (matchPattern dflt (.exceptP c (.blank none)) x ctx v ≠ [] ↔
        matchPattern dflt c x ctx v = [])) ∧
    (∀ (dflt : DefaultLookup) (c : PatternObject) (ctx : MatchCtx) (v : Vars),
      matchPattern dflt (.exceptP c (.blank none)) seqEmpty ctx v = []) := by
  constructor
  · intro dflt c x ctx v hx
    by_cases hc : (matchPattern dflt c x ctx v).isEmpty
    · simp [matchPattern, hc, blank_match_nonempty dflt x ctx v hx,
        List.isEmpty_iff.mp hc]
    · rw [List.isEmpty_iff] at hc
      simp [matchPattern, List.isEmpty_iff, hc]
  · intro dflt c ctx v
    by_cases hc : (matchPattern dflt c seqEmpty ctx v).isEmpty
    · simp [matchPattern, hc, isEmptySequence, sameQ_refl]
    · simp [matchPattern, hc]

/-- C3 witness: the amended equivalence applied at `c = Verbatim[b]`,
candidate `a`. -/
theorem except_matches_iff_not_excluded_witness :
    (Expr.sym "a" ≠ seqEmpty) ∧
    (matchPattern noDefaults
        (.exceptP (.verbatim (.sym "b")) (.blank none)) (.sym "a") ctxMin [] ≠ [] ↔
      matchPattern noDefaults (.verbatim (.sym "b")) (.sym "a") ctxMin [] = []) :=
  ⟨by simp [seqEmpty],
    except_matches_iff_not_excluded.1 noDefaults (.verbatim (.sym "b"))
      (.sym "a") ctxMin [] (by simp [seqEmpty])⟩

/-! ### C2 -/

/-- C2: a name already bound constrains the match verbatim — with an
existing binding `ex`, `Pattern[name, inner]` succeeds iff the candidate is
structurally equal to `ex`, and every yielded environment is the input
environment unchanged (no rebinding); consequently the fixed-arity pattern
sequence `f[x_, x_]` matches `[a, a]` but not `[a, b]` for structurally
distinct `a`, `b`. -/
theorem pattern_rebinding_consistency :
    (∀ (dflt : DefaultLookup) (n : String) (inner : PatternObject) (e : Expr)
        (ctx : MatchCtx) (v : Vars) (ex : Expr),
      varsGet v n = some ex →
        ((matchPattern dflt (.pattern n inner) e ctx v ≠ [] ↔ ex = e) ∧
          ∀ w ∈ matchPattern dflt (.pattern n inner) e ctx v, w = v)) ∧
    (∀ (dflt : DefaultLookup) (a b : Expr), a ≠ seqEmpty →
      (matchElementsFixed dflt
          [.pattern "x" (.blank none), .pattern "x" (.blank none)] [a, b] [] ≠ [] ↔
        a = b)) := by
  constructor
  · intro dflt n inner e ctx v ex hget
    rw [pattern_match_bound dflt n inner e ctx v ex hget]
    by_cases hsq : sameQ ex e = true
    · simp [hsq, (sameQ_iff ex e).mp hsq, sameQ_refl]
    · rw [Bool.not_eq_true] at hsq
      simp [hsq, (sameQ_eq_false_iff ex e).mp hsq]
  · intro dflt a b ha
    have h1 : matchPattern dflt (.pattern "x" (.blank none)) a ctxMin [] =
        [[("x", a)]] := by
      have hg : varsGet ([] : Vars) "x" = none := rfl
      simp [matchPattern, hg, varsSet,
        blank_match_nonempty dflt a ctxMin [("x", a)] ha]
    have h2 : varsGet [("x", a)] "x" = some a := by simp [varsGet]
    have hfull : matchElementsFixed dflt
        [.pattern "x" (.blank none), .pattern "x" (.blank none)] [a, b] [] =
          if sameQ a b then [[("x", a)]] else [] := by
      by_cases hab : sameQ a b = true
      · simp [matchElementsFixed, h1,
          pattern_match_bound dflt "x" (.blank none) b ctxMin [("x", a)] a h2, hab]
      · rw [Bool.not_eq_true] at hab
        simp [matchElementsFixed, h1,
          pattern_match_bound dflt "x" (.blank none) b ctxMin [("x", a)] a h2, hab]
    rw [hfull]
    by_cases hab : sameQ a b = true
    · simp [hab, (sameQ_iff a b).mp hab, sameQ_refl]
    · rw [Bool.not_eq_true] at hab
      simp [hab, (sameQ_eq_false_iff a b).mp hab]

/-- C2 witness: the bound-name equivalence at a concrete environment and
the `f[x_, x_]` scenario at `a`, `b`. -/
theorem pattern_rebinding_consistency_witness :
    ((matchPattern noDefaults (.pattern "x" (.blank none)) (.sym "b") ctxMin
        [("x", .sym "a")] ≠ [] ↔ Expr.sym "a" = .sym "b") ∧
      ∀ w ∈ matchPattern noDefaults (.pattern "x" (.blank none)) (.sym "b") ctxMin
        [("x", .sym "a")], w = [("x", .sym "a")]) ∧
    (matchElementsFixed noDefaults
        [.pattern "x" (.blank none), .pattern "x" (.blank none)]
        [.sym "a", .sym "b"] [] ≠ [] ↔ Expr.sym "a" = .sym "b") :=
  ⟨pattern_rebinding_consistency.1 noDefaults "x" (.blank none) (.sym "b")
      ctxMin [("x", .sym "a")] (.sym "a") (by simp [varsGet]),
    pattern_rebinding_consistency.2 noDefaults (.sym "a") (.sym "b")
      (by simp [seqEmpty])⟩

/-! ### C10 -/

/-- C10: when the pattern variable is already bound and the candidate is
structurally equal to the existing binding, `Pattern.match` succeeds
yielding the unchanged environment, for every inner sub-pattern alike —
the inner pattern's constraints are not consulted on a re-bound name. -/
theorem pattern_rebind_skips_inner :
    ∀ (dflt : DefaultLookup) (n : String) (inner : PatternObject) (e : Expr)
      (ctx : MatchCtx) (v : Vars) (ex : Expr),
      varsGet v n = some ex → ex = e →
      matchPattern dflt (.pattern n inner) e ctx v = [v] := by
  intro dflt n inner e ctx v ex hget heq
  rw [pattern_match_bound dflt n inner e ctx v ex hget,
    if_pos ((sameQ_iff ex e).mpr heq)]

/-- C10 witness: the name `x` is bound to `a`; re-matching `x : _Integer`
against `a` succeeds without the head restriction being consulted, even
though `_Integer` alone rejects `a`. -/
theorem pattern_rebind_skips_inner_witness :
    matchPattern noDefaults
        (.pattern "x" (.blank (some (.sym "System`Integer")))) (.sym "a") ctxMin
        [("x", .sym "a")] = [[("x", .sym "a")]] ∧
    matchPattern noDefaults (.blank (some (.sym "System`Integer"))) (.sym "a")
        ctxMin [("x", .sym "a")] = [] :=
  ⟨pattern_rebind_skips_inner noDefaults "x" (.blank (some (.sym "System`Integer")))
      (.sym "a") ctxMin [("x", .sym "a")] (.sym "a") (by simp [varsGet]) rfl,
    by simp [matchPattern, isEmptySequence, seqEmpty, sameQ, getHead]⟩

/-! ### C8 -/

theorem exists_head_int {es : List Expr} (hne : es ≠ [])
    (hall : ∀ x ∈ es, (getIntValue x).isSome = true) :
    ∃ mn, es.head?.bind getIntValue = some mn := by
  cases es with
  | nil => exact absurd rfl hne
  | cons x t =>
    have hx := hall x (by simp)
    cases hg : getIntValue x with
    | none => rw [hg] at hx; simp at hx
    | some m => exact ⟨m, by simp [hg]⟩

theorem exists_last_int {es : List Expr} (hne : es ≠ [])
    (hall : ∀ x ∈ es, (getIntValue x).isSome = true) :
    ∃ mx, es.getLast?.bind getIntValue = some mx := by
  rw [List.getLast?_eq_getLast es hne]
  have hx := hall (es.getLast hne) (List.getLast_mem hne)
  cases hg : getIntValue (es.getLast hne) with
  | none => rw [hg] at hx; simp at hx
  | some m => exact ⟨m, by simp [hg]⟩

/-- C8 counterexample: the range specification `0` (one non-negative
integer) is rejected with the `range` error because `0` is falsy in the
accepting test, while the negative integer `-2` is accepted and becomes
`max = -2`; both refute the claimed "exactly the non-negative integer
specifications" characterization. -/
theorem repeated_range_counterexample :
    repeated_init_range [.sym "p", .int 0] 1 = .error "range" ∧
    repeated_init_range [.sym "p", .int (-2)] 1 = .ok (1, some (-2)) :=
  ⟨rfl, rfl⟩

/-- C8 (amended): compiling a `Repeated` range succeeds exactly when the
specification is a `List` of one or two elements all carrying integer
values (signs unchecked; `min`/`max` become its first/last value), or a
single expression with a non-zero integer value (sign unchecked; it
becomes `max` and `min` stays 1); everything else — including the single
integer `0` — reports the `range` `PatternError`. -/
theorem repeated_range_characterization :
    (∀ (inner r : Expr),
      (∃ p, repeated_init_range [inner, r] 1 = .ok p) ↔
        ((hasListHead r = true ∧
            ((getElements r).length = 1 ∨ (getElements r).length = 2) ∧
            ∀ x ∈ getElements r, (getIntValue x).isSome = true) ∨
          ∃ m, getIntValue r = some m ∧ m ≠ 0)) ∧
    (∀ (inner : Expr) (m : Int), m ≠ 0 →
      repeated_init_range [inner, .int m] 1 = .ok (1, some m)) ∧
    (∀ (inner : Expr) (a : Int),
      repeated_init_range [inner, .app (.sym "System`List") [.int a]] 1 =
        .ok (a, some a)) ∧
    (∀ (inner : Expr) (a b : Int),
      repeated_init_range [inner, .app (.sym "System`List") [.int a, .int b]] 1 =
        .ok (a, some b)) := by
  refine ⟨?_, ?_, ?_, ?_⟩
  · intro inner r
    by_cases hc : (hasListHead r &&
        ((getElements r).length == 1 || (getElements r).length == 2) &&
        (getElements r).all (fun el => (getIntValue el).isSome)) = true
    · have hP : hasListHead r = true ∧
          ((getElements r).length = 1 ∨ (getElements r).length = 2) ∧
          ∀ x ∈ getElements r, (getIntValue x).isSome = true := by
        simpa [List.all_eq_true, and_assoc] using hc
      obtain ⟨hL, hlen, hall⟩ := hP
      have hne : getElements r ≠ [] := by
        intro hh
        rw [hh] at hlen
        simp at hlen
      obtain ⟨mn, hmn⟩ := exists_head_int hne hall
      obtain ⟨mx, hmx⟩ := exists_last_int hne hall
      constructor
      · intro _
        exact Or.inl ⟨hL, hlen, hall⟩
      · intro _
        exact ⟨(mn, some mx), by simp [repeated_init_range, hc, hmn, hmx]⟩
    · have hcf : (hasListHead r &&
          ((getElements r).length == 1 || (getElements r).length == 2) &&
          (getElements r).all (fun el => (getIntValue el).isSome)) = false := by
        rwa [Bool.not_eq_true] at hc
      have hnP : ¬ (hasListHead r = true ∧
          ((getElements r).length = 1 ∨ (getElements r).length = 2) ∧
          ∀ x ∈ getElements r, (getIntValue x).isSome = true) := by
        rintro ⟨h1, h2, h3⟩
        apply hc
        rcases h2 with h2 | h2 <;> simp [h1, h2, List.all_eq_true.mpr h3]
      cases hg : getIntValue r with
      | none =>
        constructor
        · intro hex
          obtain ⟨p, hp⟩ := hex
          simp [repeated_init_range, hcf, hg] at hp
        · intro h
          rcases h with h | ⟨m, hm, _⟩
          · exact absurd h hnP
          · exact Option.noConfusion hm
      | some m =>
        by_cases hm0 : m = 0
        · subst hm0
          constructor
          · intro hex
            obtain ⟨p, hp⟩ := hex
            simp [repeated_init_range, hcf, hg] at hp
          · intro h
            rcases h with h | ⟨m', hm', hm'0⟩
            · exact absurd h hnP
            · exact absurd (Option.some.inj hm').symm hm'0
        · constructor
          · intro _
            exact Or.inr ⟨m, rfl, hm0⟩
          · intro _
            refine ⟨(1, some m), ?_⟩
            simp [repeated_init_range, hcf, hg, hm0]
  · intro inner m hm
    simp [repeated_init_range, hasListHead, getElements, getIntValue, hm]
  · intro inner a
    rfl
  · intro inner a b
    rfl

/-- C8 witness: the amended acceptance applied at the non-zero single
integer `5`. -/
theorem repeated_range_characterization_witness :
    repeated_init_range [.sym "p", .int 5] 1 = .ok (1, some 5) :=
  repeated_range_characterization.2.1 (.sym "p") 5 (by decide)

/-! ### C9 -/

/-- C9 (code bug): `Alternatives.get_match_count` initializes its
accumulator as `tuple(sub)` and then performs in-place item assignment,
so the moment the min-of-minimums/max-of-maximums merge has to change the
accumulator — here the second alternative's bounded maximum against an
unbounded first — the source raises `TypeError` instead of returning the
merged pair, which `match_count_merge` (the spec's merge) does produce;
when no merge is needed the source does return the (already merged) first
pair. -/
theorem alternatives_match_count_crash :
    alternatives_get_match_count [(1, none), (1, some 1)] =
      .error "TypeError-tuple-assignment" ∧
    match_count_merge (1, none) [(1, some 1)] = (1, none) ∧
    alternatives_get_match_count [(0, some 2), (1, some 1)] = .ok (0, some 2) ∧
    match_count_merge (0, some 2) [(1, some 1)] = (0, some 2) :=
  ⟨rfl, rfl, rfl, rfl⟩

/-! ### C4 -/

/-- C4 (code bug): `ReplaceList.eval` passes `max_count` to each rule's
`apply` separately and concatenates, so with two rules that each yield one
substitution and `n = 1` the result has length 2 (the class documentation
promises "at most `n` results"), and it is not the length-1 prefix of the
`n = 2` result; the per-rule truncation itself is prefix-stable. -/
theorem replace_list_max_per_rule :
    replace_list_eval (fun r _ => [r.2]) (.sym "a")
        [(.sym "a", .sym "x"), (.sym "a", .sym "y")] (some 1) =
      [.sym "x", .sym "y"] ∧
    (replace_list_eval (fun r _ => [r.2]) (.sym "a")
        [(.sym "a", .sym "x"), (.sym "a", .sym "y")] (some 2)).take 1 =
      [.sym "x"] ∧
    ∀ (enum : Expr × Expr → Expr → List Expr) (r : Expr × Expr) (e : Expr) (n : Nat),
      rule_apply_list enum r e (some n) =
        (rule_apply_list enum r e (some (n + 1))).take n := by
  refine ⟨rfl, rfl, ?_⟩
  intro enum r e n
  simp [rule_apply_list, List.take_take]

/-! ### C5 -/

/-- C5 counterexample: a `Rule` head of arity 3 is reported with the
`argrx` diagnostic, not `reps` or `rmix`. -/
theorem create_rules_diag_counterexample :
    create_rules (.app (.sym "System`Rule") [.sym "a", .sym "b", .sym "c"]) =
      .error "argrx" ∧
    ¬ (create_rules (.app (.sym "System`Rule") [.sym "a", .sym "b", .sym "c"]) =
        .error "reps" ∨
      create_rules (.app (.sym "System`Rule") [.sym "a", .sym "b", .sym "c"]) =
        .error "rmix") := by
  have h : create_rules (.app (.sym "System`Rule") [.sym "a", .sym "b", .sym "c"]) =
      .error "argrx" := rfl
  refine ⟨h, ?_⟩
  rw [h]
  simp

theorem createRulesLoop_error (items : List Expr) :
    ∀ acc, (∃ it ∈ items, isRuleHead it = false ∨ (getElements it).length ≠ 2) →
      ∃ m, (m = "reps" ∨ m = "argrx") ∧ createRulesLoop items acc = .error m := by
  induction items with
  | nil =>
    intro acc h
    simp at h
  | cons r rest ih =>
    intro acc ⟨it, hmem, hbad⟩
    by_cases hr : isRuleHead r = true
    · rcases hel : getElements r with _ | ⟨x, _ | ⟨y, _ | ⟨z, t⟩⟩⟩
      · exact ⟨"argrx", Or.inr rfl, by simp [createRulesLoop, hr, hel]⟩
      · exact ⟨"argrx", Or.inr rfl, by simp [createRulesLoop, hr, hel]⟩
      · have hloop : createRulesLoop (r :: rest) acc =
            createRulesLoop rest ((x, y) :: acc) := by
          simp [createRulesLoop, hr, hel]
        rcases List.mem_cons.mp hmem with hit | hit
        · subst hit
          rcases hbad with hb | hb
          · rw [hr] at hb; exact Bool.noConfusion hb
          · rw [hel] at hb; simp at hb
        · obtain ⟨m, hm, hrun⟩ := ih ((x, y) :: acc) ⟨it, hit, hbad⟩
          exact ⟨m, hm, by rw [hloop, hrun]⟩
      · exact ⟨"argrx", Or.inr rfl, by simp [createRulesLoop, hr, hel]⟩
    · rw [Bool.not_eq_true] at hr
      exact ⟨"reps", Or.inl rfl, by simp [createRulesLoop, hr]⟩

theorem driverEval_error {re : Expr} {m : String}
    (h : create_rules re = .error m) :
    ∀ (applyFn : List (Expr × Expr) → Expr → Expr × Bool) (nm : String) (e : Expr),
      driverEval applyFn nm e re = none := by
  intro applyFn nm e
  simp [driverEval, h]

/-- C5 (amended): a rules argument whose own head is `Dispatch` takes the
early return of lines 169-170 (a `Dispatch` built from its elements) and
reports no diagnostic; for any other rules argument, when the flat rule
items mix `List`/`Dispatch` heads with non-`List` items, `create_rules`
reports `rmix`, and when no item has a `List`/`Dispatch` head and some
item is not a `Rule`/`RuleDelayed` of arity 2, it reports `reps` (wrong
head) or `argrx` (wrong arity); in either reported case every
Replace-family `eval` returns `None` without applying any rule to the
input expression. -/
theorem create_rules_invalid_reports_and_aborts :
    (∀ (re : Expr), hasDispatchHead re = true →
      create_rules re = .dispatchValue (getElements re)) ∧
    (∀ (re : Expr), hasDispatchHead re = false →
      ((if hasListHead re then getElements re else [re]).any
          (fun it => hasListHead it || hasDispatchHead it) = true ∧
        (if hasListHead re then getElements re else [re]).all hasListHead = false) →
      create_rules re = .error "rmix" ∧
      ∀ (applyFn : List (Expr × Expr) → Expr → Expr × Bool) (nm : String) (e : Expr),
        driverEval applyFn nm e re = none) ∧
    (∀ (re : Expr), hasDispatchHead re = false →
      ((if hasListHead re then getElements re else [re]).any
          (fun it => hasListHead it || hasDispatchHead it) = false ∧
        ∃ it ∈ (if hasListHead re then getElements re else [re]),
          isRuleHead it = false ∨ (getElements it).length ≠ 2) →
      ∃ m, (m = "reps" ∨ m = "argrx") ∧ create_rules re = .error m ∧
        ∀ (applyFn : List (Expr × Expr) → Expr → Expr × Bool) (nm : String) (e : Expr),
          driverEval applyFn nm e re = none) := by
  refine ⟨?_, ?_, ?_⟩
  · intro re hD
    simp [create_rules, hD]
  · intro re hD ⟨hany, hall⟩
    have hcr : create_rules re = .error "rmix" := by
      simp [create_rules, hD, hany, hall]
    exact ⟨hcr, driverEval_error hcr⟩
  · intro re hD ⟨hany, hbad⟩
    obtain ⟨m, hm, hrun⟩ := createRulesLoop_error
      (if hasListHead re then getElements re else [re]) [] hbad
    have hcr : create_rules re = .error m := by
      simp [create_rules, hD, hany]
      exact hrun
    exact ⟨m, hm, hcr, driverEval_error hcr⟩

/-- C5 witness: the `Dispatch`-headed early return at `Dispatch[a -> b]`,
the `rmix` case at `{{a -> b}, a -> b}`, and the `reps`/`argrx` case at
the arity-3 `Rule[a, b, c]`. -/
theorem create_rules_invalid_witness :
    create_rules (.app (.sym "System`Dispatch")
        [.app (.sym "System`Rule") [.sym "a", .sym "b"]]) =
      .dispatchValue [.app (.sym "System`Rule") [.sym "a", .sym "b"]] ∧
    (create_rules (.app (.sym "System`List")
        [.app (.sym "System`List") [.app (.sym "System`Rule") [.sym "a", .sym "b"]],
          .app (.sym "System`Rule") [.sym "a", .sym "b"]]) = .error "rmix" ∧
      ∀ (applyFn : List (Expr × Expr) → Expr → Expr × Bool) (nm : String) (e : Expr),
        driverEval applyFn nm e (.app (.sym "System`List")
          [.app (.sym "System`List") [.app (.sym "System`Rule") [.sym "a", .sym "b"]],
            .app (.sym "System`Rule") [.sym "a", .sym "b"]]) = none) ∧
    (∃ m, (m = "reps" ∨ m = "argrx") ∧
      create_rules (.app (.sym "System`Rule") [.sym "a", .sym "b", .sym "c"]) =
        .error m ∧
      ∀ (applyFn : List (Expr × Expr) → Expr → Expr × Bool) (nm : String) (e : Expr),
        driverEval applyFn nm e
          (.app (.sym "System`Rule") [.sym "a", .sym "b", .sym "c"]) = none) :=
  ⟨create_rules_invalid_reports_and_aborts.1 _ rfl,
    create_rules_invalid_reports_and_aborts.2.1 _ rfl ⟨rfl, rfl⟩,
    create_rules_invalid_reports_and_aborts.2.2 _ rfl
      ⟨rfl, ⟨.app (.sym "System`Rule") [.sym "a", .sym "b", .sym "c"],
        by simp [hasListHead], Or.inr (by decide)⟩⟩⟩

/-! ### C7 -/

/-- When the `Optional` slot holds the empty sequence, has no inline
default, and the default lookup by enclosing head and position resolves
nothing (or there is no enclosing head), the match attempt yields no
success and the `nodef` message is emitted. -/
theorem optional_unresolved_empty (dflt : DefaultLookup) (inner : PatternObject)
    (ctx : MatchCtx) (v : Vars)
    (h : ctx.head = none ∨
      ∃ hd, ctx.head = some hd ∧
        dflt (getName hd) ctx.element_index ctx.element_count = none) :
    matchPattern dflt (.optionalP inner none) seqEmpty ctx v = [] ∧
      (optionalMatchCore dflt (fun x w => matchPattern dflt inner x ctxMin w)
        none seqEmpty ctx v).2 = true := by
  rcases h with hh | ⟨hd, hh, hlook⟩
  · constructor
    · simp [matchPattern, optionalMatchCore, isEmptySequence, sameQ_refl, hh]
    · simp [optionalMatchCore, isEmptySequence, sameQ_refl, hh]
  · constructor
    · simp [matchPattern, optionalMatchCore, isEmptySequence, sameQ_refl, hh, hlook]
    · simp [optionalMatchCore, isEmptySequence, sameQ_refl, hh, hlook]

/-- C7: an `Optional` slot assigned the empty sequence with no inline
default resolves its default by enclosing head and position; when the
lookup succeeds the inner pattern is matched against the resolved default,
and when it fails (or no enclosing head is available) the match attempt
yields no success and emits the `nodef` diagnostic — but returns normally,
so a driver trying rules in order still tries the remaining rules. -/
theorem optional_default_resolution :
    (∀ (dflt : DefaultLookup) (inner : PatternObject) (ctx : MatchCtx) (v : Vars)
        (hd d : Expr),
      ctx.head = some hd →
      dflt (getName hd) ctx.element_index ctx.element_count = some d →
      matchPattern dflt (.optionalP inner none) seqEmpty ctx v =
          matchPattern dflt inner d ctxMin v ∧
        (optionalMatchCore dflt (fun x w => matchPattern dflt inner x ctxMin w)
          none seqEmpty ctx v).2 = false) ∧
    (∀ (dflt : DefaultLookup) (inner : PatternObject) (ctx : MatchCtx) (v : Vars),
      (ctx.head = none ∨
        ∃ hd, ctx.head = some hd ∧
          dflt (getName hd) ctx.element_index ctx.element_count = none) →
      matchPattern dflt (.optionalP inner none) seqEmpty ctx v = [] ∧
        (optionalMatchCore dflt (fun x w => matchPattern dflt inner x ctxMin w)
          none seqEmpty ctx v).2 = true) ∧
    (∀ (dflt : DefaultLookup) (inner : PatternObject) (rhs : Expr)
        (rules : List (PatternObject × Expr)) (ctx : MatchCtx) (v : Vars),
      (ctx.head = none ∨
        ∃ hd, ctx.head = some hd ∧
          dflt (getName hd) ctx.element_index ctx.element_count = none) →
      applyRulesFirst dflt ((.optionalP inner none, rhs) :: rules) seqEmpty ctx v =
        applyRulesFirst dflt rules seqEmpty ctx v) := by
  refine ⟨?_, ?_, ?_⟩
  · intro dflt inner ctx v hd d hh hlook
    constructor
    · simp [matchPattern, optionalMatchCore, isEmptySequence, sameQ_refl, hh, hlook]
    · simp [optionalMatchCore, isEmptySequence, sameQ_refl, hh, hlook]
  · intro dflt inner ctx v h
    exact optional_unresolved_empty dflt inner ctx v h
  · intro dflt inner rhs rules ctx v h
    have hempty := (optional_unresolved_empty dflt inner ctx v h).1
    simp [applyRulesFirst, hempty]

/-- C7 witness: a lookup table with a default for `f` only; the slot under
head `f` resolves to `3`, the slot under head `g` fails with `nodef`, and
the driver moves on to the next rule. -/
theorem optional_default_resolution_witness :
    (matchPattern (fun n _ _ => if n == "System`f" then some (.int 3) else none)
        (.optionalP (.blank none) none) seqEmpty ⟨some (.sym "System`f"), some 1, some 1⟩ [] =
      matchPattern (fun n _ _ => if n == "System`f" then some (.int 3) else none)
        (.blank none) (.int 3) ctxMin [] ∧
      (optionalMatchCore (fun n _ _ => if n == "System`f" then some (.int 3) else none)
        (fun x w => matchPattern
          (fun n _ _ => if n == "System`f" then some (.int 3) else none)
          (.blank none) x ctxMin w)
        none seqEmpty ⟨some (.sym "System`f"), some 1, some 1⟩ []).2 = false) ∧
    (matchPattern (fun n _ _ => if n == "System`f" then some (.int 3) else none)
        (.optionalP (.blank none) none) seqEmpty ⟨some (.sym "System`g"), some 1, some 1⟩ [] =
        [] ∧
      (optionalMatchCore (fun n _ _ => if n == "System`f" then some (.int 3) else none)
        (fun x w => matchPattern
          (fun n _ _ => if n == "System`f" then some (.int 3) else none)
          (.blank none) x ctxMin w)
        none seqEmpty ⟨some (.sym "System`g"), some 1, some 1⟩ []).2 = true) ∧
    applyRulesFirst (fun n _ _ => if n == "System`f" then some (.int 3) else none)
        [(.optionalP (.blank none) none, .sym "r1"), (.blank none, .sym "r2")]
        seqEmpty ⟨some (.sym "System`g"), some 1, some 1⟩ [] =
      applyRulesFirst (fun n _ _ => if n == "System`f" then some (.int 3) else none)
        [(.blank none, .sym "r2")]
        seqEmpty ⟨some (.sym "System`g"), some 1, some 1⟩ [] :=
  ⟨optional_default_resolution.1
      (fun n _ _ => if n == "System`f" then some (.int 3) else none)
      (.blank none) ⟨some (.sym "System`f"), some 1, some 1⟩ []
      (.sym "System`f") (.int 3) rfl (by simp [getName]),
    optional_default_resolution.2.1
      (fun n _ _ => if n == "System`f" then some (.int 3) else none)
      (.blank none) ⟨some (.sym "System`g"), some 1, some 1⟩ []
      (Or.inr ⟨.sym "System`g", rfl, by simp [getName]⟩),
    optional_default_resolution.2.2
      (fun n _ _ => if n == "System`f" then some (.int 3) else none)
      (.blank none) (.sym "r1") [(.blank none, .sym "r2")]
      ⟨some (.sym "System`g"), some 1, some 1⟩ []
      (Or.inr ⟨.sym "System`g", rfl, by simp [getName]⟩)⟩

/-! ### C1 -/

/-- The default of the `MaxIterations` option of `ReplaceRepeated`
(`options` dict, line 426). -/
def replaceRepeatedMaxIterationsDefault : Nat := 65535

theorem rrIter_shift (step : Expr → Expr × Bool) (ev : Expr → Expr) :
    ∀ (k : Nat) (e : Expr),
      rrIter step ev k ((rr_fstep step ev e).1) = rrIter step ev (k + 1) e := by
  intro k
  induction k with
  | zero => intro e; rfl
  | succ n ih =>
    intro e
    show (rr_fstep step ev (rrIter step ev n ((rr_fstep step ev e).1))).1 = _
    rw [ih e]
    rfl

/-- If the loop body does not request another iteration, the produced
result equals the previous expression (using the no-match identity of
`do_apply_rules`). -/
theorem rr_fstep_stop (step : Expr → Expr × Bool) (ev : Expr → Expr)
    (hid : ∀ x, (step x).2 = false → (step x).1 = x) (e : Expr)
    (hstop : ((rr_fstep step ev e).2 && !sameQ (rr_fstep step ev e).1 e) = false) :
    (rr_fstep step ev e).1 = e := by
  rcases Bool.and_eq_false_iff.mp hstop with h1 | h2
  · have hs2 : (step e).2 = false := h1
    have h3 := hid e hs2
    simp [rr_fstep, hs2, h3]
  · have hsq : sameQ (rr_fstep step ev e).1 e = true := by
      simpa using h2
    exact (sameQ_iff _ _).mp hsq

/-- C1: under the no-match identity of `do_apply_rules` (a driver that
applies no rule returns the expression unchanged), the `ReplaceRepeated`
loop with cap `n ≥ 1` (default 65,535) runs `k ≤ n` iterations of the
`ReplaceAll`-style step and returns the `k`-th iterate; every iteration
before the stopping one changed the expression, and if the loop stopped
before exhausting the cap then the last iterate is structurally equal
(`sameQ`, i.e. equal) to the previous one; with no cap (`maxit = -1`), a
terminating run ends only on a structurally-stable fixed point of the
step. -/
theorem replace_repeated_caps_and_fixed_point :
    ∀ (step : Expr → Expr × Bool) (ev : Expr → Expr),
      (∀ x, (step x).2 = false → (step x).1 = x) →
      (∀ (n : Nat) (e : Expr), 1 ≤ n →
        ∃ k, 1 ≤ k ∧ k ≤ n ∧
          replace_repeated_loop step ev n e = some (rrIter step ev k e) ∧
          (∀ j, j + 1 < k →
            rrIter step ev (j + 1) e ≠ rrIter step ev j e) ∧
          (k < n → rrIter step ev k e = rrIter step ev (k - 1) e)) ∧
      (∀ (e r : Expr), rr_uncapped step ev e r → (rr_fstep step ev r).1 = r) := by
  intro step ev hid
  constructor
  · intro n
    induction n with
    | zero =>
      intro e h
      exact absurd h (by omega)
    | succ n ih =>
      intro e _
      by_cases hstop : ((rr_fstep step ev e).2 && !sameQ (rr_fstep step ev e).1 e) = true
      · cases n with
        | zero =>
          refine ⟨1, le_refl 1, le_refl 1, ?_, ?_, ?_⟩
          · simp [replace_repeated_loop, hstop, rrIter]
          · intro j hj; omega
          · intro hk; omega
        | succ m =>
          obtain ⟨k', hk1, hk2, hloop, hgap, hlast⟩ :=
            ih ((rr_fstep step ev e).1) (by omega)
          refine ⟨k' + 1, by omega, by omega, ?_, ?_, ?_⟩
          · have hu : replace_repeated_loop step ev (m + 1 + 1) e =
                match replace_repeated_loop step ev (m + 1) ((rr_fstep step ev e).1) with
                | none => some ((rr_fstep step ev e).1)
                | some out => some out := by
              simp [replace_repeated_loop, hstop]
            rw [hu, hloop, rrIter_shift]
          · intro j hj
            cases j with
            | zero =>
              have hne : sameQ (rr_fstep step ev e).1 e = false := by
                have hpair : (rr_fstep step ev e).2 = true ∧
                    sameQ (rr_fstep step ev e).1 e = false := by
                  simpa using hstop
                exact hpair.2
              have := (sameQ_eq_false_iff _ _).mp hne
              simpa [rrIter] using this
            | succ j' =>
              have := hgap j' (by omega)
              rw [rrIter_shift, rrIter_shift] at this
              exact this
          · intro hk
            have := hlast (by omega)
            rw [rrIter_shift] at this
            have h2 : rrIter step ev (k' - 1) ((rr_fstep step ev e).1) =
                rrIter step ev k' e := by
              have hs := rrIter_shift step ev (k' - 1) e
              rwa [Nat.sub_add_cancel hk1] at hs
            rw [h2] at this
            simpa using this
      · rw [Bool.not_eq_true] at hstop
        have heq := rr_fstep_stop step ev hid e hstop
        refine ⟨1, le_refl 1, by omega, ?_, ?_, ?_⟩
        · simp [replace_repeated_loop, hstop, rrIter]
        · intro j hj; omega
        · intro _
          simpa [rrIter] using heq
  · intro e r h
    induction h with
    | done e hc =>
      have he := rr_fstep_stop step ev hid e hc
      rw [he]
      exact he
    | next e out hc hrec ih => exact ih

/-- C1 witness: the loop at the identity step (no rule ever applies), with
the default iteration cap, and the uncapped relation at its immediate
fixed point. -/
theorem replace_repeated_caps_witness :
    (∃ k, 1 ≤ k ∧ k ≤ replaceRepeatedMaxIterationsDefault ∧
      replace_repeated_loop (fun x => (x, false)) id
          replaceRepeatedMaxIterationsDefault (.sym "a") =
        some (rrIter (fun x => (x, false)) id k (.sym "a")) ∧
      (∀ j, j + 1 < k →
        rrIter (fun x => (x, false)) id (j + 1) (.sym "a") ≠
          rrIter (fun x => (x, false)) id j (.sym "a")) ∧
      (k < replaceRepeatedMaxIterationsDefault →
        rrIter (fun x => (x, false)) id k (.sym "a") =
          rrIter (fun x => (x, false)) id (k - 1) (.sym "a"))) ∧
    (rr_fstep (fun x => (x, false)) id (.sym "a")).1 = .sym "a" := by
  have H := replace_repeated_caps_and_fixed_point (fun x => (x, false)) id
    (fun x _ => rfl)
  refine ⟨H.1 replaceRepeatedMaxIterationsDefault (.sym "a") (by decide), ?_⟩
  exact H.2 (.sym "a") (.sym "a") (rr_uncapped.done (.sym "a") rfl)

end MathicsPatterns
